import Mathlib

/-
Verification of the referral state machine of the Telegram referral-contest bot
(src/index.js, webhook variant).  The Postgres tables `users` and `referrals`
are modelled as lists of rows; each SQL statement is translated to the
corresponding list operation (SELECT ... rows[0] = List.find?, UPDATE ... WHERE
= List.map with a guarded update, INSERT = append, DELETE = List.filter).
-/

namespace ReferralBot

/-- A row of the `users` table: telegram_id (primary key), referral_count.
The username / first_name columns carry no referral semantics and are omitted. -/
structure UserRow where
  telegramId : Int
  referralCount : Int
  deriving Repr, DecidableEq

/-- A row of the `referrals` table: referrer_id, referred_id, is_active. -/
structure ReferralRow where
  referrerId : Int
  referredId : Int
  isActive : Bool
  deriving Repr, DecidableEq

/-- The persistence store: the two tables. -/
structure DBState where
  users : List UserRow
  referrals : List ReferralRow
  deriving Repr, DecidableEq

def emptyDB : DBState := ⟨[], []⟩

/-- SELECT * FROM users WHERE telegram_id = $1, taking rows[0]. -/
def lookupUser (us : List UserRow) (id : Int) : Option UserRow :=
  us.find? (fun u => u.telegramId == id)

/-- The referral_count of a user as seen through a SELECT, if the user exists. -/
def lookupCount (s : DBState) (id : Int) : Option Int :=
  (lookupUser s.users id).map (fun u => u.referralCount)

/-- The list of telegram_id values present in the users table. -/
def usersIds (s : DBState) : List Int := s.users.map (fun u => u.telegramId)

/-- getOrCreateUser (src/index.js lines 428-445): SELECT then INSERT if absent.
Modelled from the spec: the schema file is not part of the repository snapshot;
per spec section 4.3 a freshly created user starts with referral_count = 0
(the INSERT names no referral_count, so the column default applies). -/
def getOrCreateUser (s : DBState) (id : Int) : DBState :=
  match lookupUser s.users id with
  | some _ => s
  | none => { s with users := s.users ++ [{ telegramId := id, referralCount := 0 }] }

/-- The /start payload after the regex match: absent, or a non-empty string.
`num n` stands for a string that both JavaScript Number() and the numeric
referrer_id column read as the integer n; `malformed` stands for a string
Number() turns into NaN and the numeric column rejects. -/
inductive StartParam where
  | num (n : Int)
  | malformed
  deriving Repr, DecidableEq

/-- The JavaScript guard Number(newReferrerId) !== userId, negated: for a
malformed parameter Number gives NaN, which is never equal to userId. -/
def paramEqNum (p : StartParam) (u : Int) : Bool :=
  match p with
  | .num n => n == u
  | .malformed => false

/-- INSERT INTO referrals (referrer_id, referred_id) VALUES ($1, $2)
(src/index.js line 471).  Modelled from the spec: the schema file is not in
the repository snapshot; per spec section 3 a new referral starts Pending,
so is_active defaults to false, and identifiers are numeric, so inserting a
malformed (non-numeric) referrer value fails the statement and no row is
inserted (the handler's catch swallows the error). -/
def insertReferral (s : DBState) (p : StartParam) (referred : Int) : DBState :=
  match p with
  | .num n =>
      { s with referrals :=
          s.referrals ++ [{ referrerId := n, referredId := referred, isActive := false }] }
  | .malformed => s

/-- The row-level function of the statement
UPDATE referrals SET referrer_id = n WHERE referred_id = referred. -/
def setReferrer (n : Int) (referred : Int) (r : ReferralRow) : ReferralRow :=
  if r.referredId == referred then { r with referrerId := n } else r

/-- UPDATE referrals SET referrer_id = $1 WHERE referred_id = $2
(src/index.js line 477).  Modelled from the spec: as with insertReferral, a
malformed referrer value is rejected by the numeric column and the statement
changes nothing. -/
def reassignReferral (s : DBState) (p : StartParam) (referred : Int) : DBState :=
  match p with
  | .num n => { s with referrals := s.referrals.map (setReferrer n referred) }
  | .malformed => s

/-- The /start handler (src/index.js lines 450-499): getOrCreateUser for the
issuing user, then, when a start parameter is present and Number(param) is not
the issuing user's own id, the referral branch: SELECT the existing referral
for this referred user; INSERT when none, reassign the referrer when inactive,
do nothing when active. -/
def startHandler (s : DBState) (userId : Int) (param : Option StartParam) : DBState :=
  let s1 := getOrCreateUser s userId
  match param with
  | none => s1
  | some p =>
      if paramEqNum p userId then s1
      else
        match s1.referrals.find? (fun r => r.referredId == userId) with
        | none => insertReferral s1 p userId
        | some row => if row.isActive then s1 else reassignReferral s1 p userId

/-- UPDATE users SET referral_count = f(referral_count) WHERE telegram_id = rid. -/
def bumpUser (rid : Int) (f : Int → Int) (u : UserRow) : UserRow :=
  if u.telegramId == rid then { u with referralCount := f u.referralCount } else u

/-- UPDATE referrals SET is_active = b WHERE referred_id = referred. -/
def setActive (b : Bool) (referred : Int) (r : ReferralRow) : ReferralRow :=
  if r.referredId == referred then { r with isActive := b } else r

/-- The new_chat_members handler (src/index.js lines 741-787): SELECT the
inactive referral of the joining member; when found, set it active and add 1
to the referrer's referral_count inside one transaction. -/
def newChatMember (s : DBState) (memberId : Int) : DBState :=
  match s.referrals.find? (fun r => r.referredId == memberId && !r.isActive) with
  | none => s
  | some row =>
      { users := s.users.map (bumpUser row.referrerId (fun c => c + 1)),
        referrals := s.referrals.map (setActive true memberId) }

/-- The left_chat_member handler (src/index.js lines 790-836): SELECT the
active referral of the leaving member; when found, set the referrer's
referral_count to GREATEST(0, referral_count - 1) and deactivate the row
inside one transaction. -/
def leftChatMember (s : DBState) (memberId : Int) : DBState :=
  match s.referrals.find? (fun r => r.referredId == memberId && r.isActive) with
  | none => s
  | some row =>
      { users := s.users.map (bumpUser row.referrerId (fun c => max 0 (c - 1))),
        referrals := s.referrals.map (setActive false memberId) }

/-- An inbound event of the referral state machine. -/
inductive Event where
  | start (userId : Int) (param : Option StartParam)
  | memberJoined (memberId : Int)
  | memberLeft (memberId : Int)
  deriving Repr, DecidableEq

def step (s : DBState) : Event → DBState
  | .start u p => startHandler s u p
  | .memberJoined m => newChatMember s m
  | .memberLeft m => leftChatMember s m

def runTrace (s : DBState) (es : List Event) : DBState := es.foldl step s

/-- Number of active referral rows attributed to referrer id. -/
def activeBy (s : DBState) (id : Int) : Nat :=
  s.referrals.countP (fun r => r.referrerId == id && r.isActive)

/-- The spec's count invariant: every user's referral_count equals the number
of active referral rows whose referrer is that user. -/
def countInv (s : DBState) : Prop :=
  ∀ u ∈ s.users, u.referralCount = (activeBy s u.telegramId : Int)

instance instDecCountInv (s : DBState) : Decidable (countInv s) := by
  unfold countInv; exact List.decidableBAll _ s.users

/-- Precondition under which the count invariant is preserved: a /start event
that can enter the referral branch (numeric parameter different from the
issuing user) names a referrer already present in the users table. -/
def okEvent (s : DBState) : Event → Bool
  | .start u (some (.num r)) => (r == u) || decide (r ∈ usersIds s)
  | _ => true

/-- Every event of the trace satisfies okEvent at the state it acts on. -/
def okTrace : DBState → List Event → Bool
  | _, [] => true
  | s, e :: es => okEvent s e && okTrace (step s e) es

/-- The inductive invariant: telegram_id is unique in users (primary key), at
most one referral row per referred_id, every referral row's referrer has a
users row, and the count invariant itself. -/
def goodState (s : DBState) : Prop :=
  (usersIds s).Nodup ∧
  (s.referrals.map (fun r => r.referredId)).Nodup ∧
  (∀ r ∈ s.referrals, r.referrerId ∈ usersIds s) ∧
  countInv s

/-- The comparison ORDER BY referral_count DESC used by the /rank query. -/
def countGE (a b : UserRow) : Prop := b.referralCount ≤ a.referralCount

instance : DecidableRel countGE := fun a b => Int.decLe b.referralCount a.referralCount

instance : IsTotal UserRow countGE := ⟨fun a b => le_total b.referralCount a.referralCount⟩

instance : IsTrans UserRow countGE := ⟨fun _ _ _ h1 h2 => le_trans h2 h1⟩

/-- The window function RANK() OVER (ORDER BY referral_count DESC): each row
of the ordered partition is numbered 1 + the number of preceding rows with
strictly greater referral_count, so peers (ties) share the rank of the first
row of their group. -/
def rankAux (prev : List UserRow) : List UserRow → List (UserRow × Nat)
  | [] => []
  | x :: xs =>
      (x, 1 + prev.countP (fun v => decide (x.referralCount < v.referralCount)))
        :: rankAux (prev ++ [x]) xs

/-- The /rank handler (src/index.js lines 516-539): the CTE computes
RANK() OVER (ORDER BY referral_count DESC) over the users table, the outer
SELECT keeps the row of the requesting chat id, and the reply shows count and
position only when a row was found and its referral_count > 0; otherwise the
"no referrals yet" message is sent (modelled as none). -/
def getRank (s : DBState) (uid : Int) : Option (Int × Nat) :=
  match (rankAux [] (List.insertionSort countGE s.users)).find?
      (fun q => q.1.telegramId == uid) with
  | some (u, pos) => if 0 < u.referralCount then some (u.referralCount, pos) else none
  | none => none

/-- Outcome of one bot.sendMessage call during broadcast: delivered, rejected
with ETELEGRAM 403 Forbidden (the recipient blocked the bot), or failed with
any other error. -/
inductive SendOutcome where
  | delivered
  | blocked
  | failedOther
  deriving Repr, DecidableEq

/-- The loop of broadcastMessage (src/index.js lines 662-706): iterate over
the snapshot of telegram ids, increment successCount on delivery and
failureCount on any error, and on a 403 error additionally
DELETE FROM users WHERE telegram_id = id. -/
def broadcastGo (send : Int → SendOutcome) :
    List Int → Nat → Nat → List UserRow → Nat × Nat × List UserRow
  | [], sc, fc, us => (sc, fc, us)
  | id :: rest, sc, fc, us =>
      match send id with
      | .delivered => broadcastGo send rest (sc + 1) fc us
      | .blocked =>
          broadcastGo send rest sc (fc + 1) (us.filter (fun u => !(u.telegramId == id)))
      | .failedOther => broadcastGo send rest sc (fc + 1) us

/-- broadcastMessage: SELECT telegram_id FROM users once as a snapshot, then
the send loop over that snapshot.  Returns (success, failed, final users
table); the /broadcast endpoint reports success_count and failed_count from
the first two components. -/
def broadcastMessage (send : Int → SendOutcome) (s : DBState) : Nat × Nat × List UserRow :=
  broadcastGo send (s.users.map (fun u => u.telegramId)) 0 0 s.users

/- ### Generic list lemmas -/

theorem find?_append_of_forall_false {α} {p : α → Bool} {l₁ : List α} (l₂ : List α)
    (h : ∀ a ∈ l₁, p a = false) : (l₁ ++ l₂).find? p = l₂.find? p := by
  induction l₁ with
  | nil => rfl
  | cons a l ih =>
    rw [List.cons_append, List.find?_cons_of_neg _ (by simp [h a (by simp)])]
    exact ih (fun x hx => h x (by simp [hx]))

theorem find?_append_some {α} {p : α → Bool} {l₁ : List α} {a : α} (l₂ : List α)
    (h : l₁.find? p = some a) : (l₁ ++ l₂).find? p = some a := by
  induction l₁ with
  | nil => simp at h
  | cons b l ih =>
    rw [List.cons_append]
    by_cases hb : p b
    · rw [List.find?_cons_of_pos _ hb] at h ⊢; exact h
    · rw [List.find?_cons_of_neg _ hb] at h ⊢; exact ih h

theorem map_eq_self_of {α} {f : α → α} {l : List α} (h : ∀ a ∈ l, f a = a) :
    l.map f = l := by
  induction l with
  | nil => rfl
  | cons a l ih => simp [h a (by simp), ih (fun x hx => h x (by simp [hx]))]

theorem find?_map_keyPres {α} (g : α → α) (p : α → Bool) (l : List α)
    (h : ∀ a, p (g a) = p a) : (l.map g).find? p = (l.find? p).map g := by
  induction l with
  | nil => rfl
  | cons a l ih =>
    by_cases ha : p a
    · rw [List.map_cons, List.find?_cons_of_pos _ (by rw [h a]; exact ha),
        List.find?_cons_of_pos _ ha]
      rfl
    · rw [List.map_cons, List.find?_cons_of_neg _ (by rw [h a]; exact ha),
        List.find?_cons_of_neg _ ha, ih]

theorem countP_map_eq {α} (g : α → α) (p : α → Bool) (l : List α)
    (h : ∀ a ∈ l, p (g a) = p a) : (l.map g).countP p = l.countP p := by
  induction l with
  | nil => rfl
  | cons a l ih =>
    rw [List.map_cons, List.countP_cons, List.countP_cons, h a (by simp),
      ih (fun x hx => h x (by simp [hx]))]

theorem countP_map_flipTrue {α} (g : α → α) (p c : α → Bool) (l : List α)
    (h₁ : ∀ a ∈ l, c a = false → g a = a)
    (h₂ : ∀ a ∈ l, c a = true → p a = false ∧ p (g a) = true) :
    (l.map g).countP p = l.countP p + l.countP c := by
  induction l with
  | nil => rfl
  | cons a l ih =>
    have ih2 := ih (fun x hx => h₁ x (by simp [hx])) (fun x hx => h₂ x (by simp [hx]))
    rw [List.map_cons, List.countP_cons, List.countP_cons, List.countP_cons]
    by_cases hc : c a
    · obtain ⟨hp, hpg⟩ := h₂ a (by simp) hc
      have e1 : (if p (g a) = true then 1 else 0) = 1 := by simp [hpg]
      have e2 : (if p a = true then 1 else 0) = 0 := by simp [hp]
      have e3 : (if c a = true then 1 else 0) = 1 := by simp [hc]
      rw [e1, e2, e3]; omega
    · rw [h₁ a (by simp) (by simpa using hc)]
      have e3 : (if c a = true then 1 else 0) = 0 := by simp [hc]
      rw [e3]; omega

theorem countP_map_flipFalse {α} (g : α → α) (p c : α → Bool) (l : List α)
    (h₁ : ∀ a ∈ l, c a = false → g a = a)
    (h₂ : ∀ a ∈ l, c a = true → p a = true ∧ p (g a) = false) :
    (l.map g).countP p + l.countP c = l.countP p := by
  induction l with
  | nil => rfl
  | cons a l ih =>
    have ih2 := ih (fun x hx => h₁ x (by simp [hx])) (fun x hx => h₂ x (by simp [hx]))
    rw [List.map_cons, List.countP_cons, List.countP_cons, List.countP_cons]
    by_cases hc : c a
    · obtain ⟨hp, hpg⟩ := h₂ a (by simp) hc
      have e1 : (if p (g a) = true then 1 else 0) = 0 := by simp [hpg]
      have e2 : (if p a = true then 1 else 0) = 1 := by simp [hp]
      have e3 : (if c a = true then 1 else 0) = 1 := by simp [hc]
      rw [e1, e2, e3]; omega
    · rw [h₁ a (by simp) (by simpa using hc)]
      have e3 : (if c a = true then 1 else 0) = 0 := by simp [hc]
      rw [e3]; omega

theorem countP_key_le_one {α β} [DecidableEq β] (f : α → β) {l : List α}
    (h : (l.map f).Nodup) (b : β) : l.countP (fun a => f a == b) ≤ 1 := by
  induction l with
  | nil => simp
  | cons a l ih =>
    rw [List.map_cons, List.nodup_cons] at h
    rw [List.countP_cons]
    by_cases hab : f a = b
    · have hz : l.countP (fun x => f x == b) = 0 := by
        rw [List.countP_eq_zero]
        intro x hx hfx
        exact h.1 (by rw [← hab] at hfx; simp at hfx; rw [← hfx]; exact List.mem_map_of_mem f hx)
      simp [hz, hab]
    · simp only [beq_iff_eq, hab]
      simpa using ih h.2

/- ### Row-update functions preserve the key fields -/

theorem bumpUser_telegramId (rid : Int) (f : Int → Int) (u : UserRow) :
    (bumpUser rid f u).telegramId = u.telegramId := by
  unfold bumpUser; split <;> rfl

theorem setActive_referredId (b : Bool) (m : Int) (r : ReferralRow) :
    (setActive b m r).referredId = r.referredId := by
  unfold setActive; split <;> rfl

theorem setActive_referrerId (b : Bool) (m : Int) (r : ReferralRow) :
    (setActive b m r).referrerId = r.referrerId := by
  unfold setActive; split <;> rfl

theorem setReferrer_referredId (n : Int) (m : Int) (r : ReferralRow) :
    (setReferrer n m r).referredId = r.referredId := by
  unfold setReferrer; split <;> rfl

theorem setReferrer_isActive (n : Int) (m : Int) (r : ReferralRow) :
    (setReferrer n m r).isActive = r.isActive := by
  unfold setReferrer; split <;> rfl

/- ### Lookup lemmas -/

theorem lookupUser_telegramId {us : List UserRow} {id : Int} {u : UserRow}
    (h : lookupUser us id = some u) : u.telegramId = id := by
  simpa using List.find?_some h

theorem lookupUser_mem {us : List UserRow} {id : Int} {u : UserRow}
    (h : lookupUser us id = some u) : u ∈ us :=
  List.mem_of_find?_eq_some h

theorem lookupUser_bump (us : List UserRow) (rid : Int) (f : Int → Int) (id : Int) :
    lookupUser (us.map (bumpUser rid f)) id = (lookupUser us id).map (bumpUser rid f) :=
  find?_map_keyPres _ _ _ (fun u => by rw [bumpUser_telegramId])

theorem countOf_bump_self {us : List UserRow} {rid : Int} {u : UserRow} (f : Int → Int)
    (h : lookupUser us rid = some u) :
    (lookupUser (us.map (bumpUser rid f)) rid).map (fun x => x.referralCount)
      = some (f u.referralCount) := by
  rw [lookupUser_bump, h]
  simp [bumpUser, lookupUser_telegramId h]

theorem countOf_bump_other {us : List UserRow} (rid : Int) (f : Int → Int) {id : Int}
    (hne : id ≠ rid) :
    (lookupUser (us.map (bumpUser rid f)) id).map (fun x => x.referralCount)
      = (lookupUser us id).map (fun x => x.referralCount) := by
  rw [lookupUser_bump]
  cases h : lookupUser us id with
  | none => rfl
  | some u =>
    have ht := lookupUser_telegramId h
    simp [bumpUser, ht, hne]

theorem users_bump_id {us : List UserRow} {rid : Int} (f : Int → Int)
    (h : ∀ u ∈ us, u.telegramId ≠ rid) : us.map (bumpUser rid f) = us :=
  map_eq_self_of (fun u hu => by unfold bumpUser; simp [h u hu])

theorem lookupCount_some {s : DBState} {j : Int} {c : Int} (h : lookupCount s j = some c) :
    ∃ u, lookupUser s.users j = some u ∧ u.referralCount = c := by
  unfold lookupCount at h
  cases hu : lookupUser s.users j with
  | none => rw [hu] at h; cases h
  | some u => rw [hu] at h; exact ⟨u, rfl, by simpa using h⟩

theorem lookupUser_bump_self {us : List UserRow} {rid : Int} {u : UserRow} (f : Int → Int)
    (h : lookupUser us rid = some u) :
    lookupUser (us.map (bumpUser rid f)) rid
      = some { u with referralCount := f u.referralCount } := by
  rw [lookupUser_bump, h]
  simp [bumpUser, lookupUser_telegramId h]

theorem lookupUser_bump_other {us : List UserRow} {rid : Int} {id : Int} {u : UserRow}
    (f : Int → Int) (hne : id ≠ rid) (h : lookupUser us id = some u) :
    lookupUser (us.map (bumpUser rid f)) id = some u := by
  rw [lookupUser_bump, h]
  simp [bumpUser, lookupUser_telegramId h, hne]

theorem lookupUser_isSome_of_mem {s : DBState} {id : Int} (h : id ∈ usersIds s) :
    ∃ u, lookupUser s.users id = some u := by
  unfold usersIds at h
  obtain ⟨u, hu, he⟩ := List.mem_map.mp h
  have : (lookupUser s.users id).isSome := by
    rw [lookupUser, List.find?_isSome]
    exact ⟨u, hu, by simp [he]⟩
  exact Option.isSome_iff_exists.mp this

/- ### getOrCreateUser lemmas -/

theorem getOrCreate_of_some {s : DBState} {id : Int} {u : UserRow}
    (h : lookupUser s.users id = some u) : getOrCreateUser s id = s := by
  unfold getOrCreateUser; rw [h]

theorem getOrCreate_referrals (s : DBState) (id : Int) :
    (getOrCreateUser s id).referrals = s.referrals := by
  unfold getOrCreateUser; split <;> rfl

theorem lookupUser_getOrCreate {s : DBState} {j : Int} {u : UserRow} (id : Int)
    (h : lookupUser s.users j = some u) :
    lookupUser (getOrCreateUser s id).users j = some u := by
  unfold getOrCreateUser; split
  · exact h
  · exact find?_append_some _ h

theorem mem_getOrCreate {s : DBState} {id : Int} {u : UserRow}
    (h : u ∈ (getOrCreateUser s id).users) :
    u ∈ s.users ∨ u = { telegramId := id, referralCount := 0 } := by
  unfold getOrCreateUser at h; split at h
  · exact Or.inl h
  · rcases List.mem_append.mp h with h1 | h1
    · exact Or.inl h1
    · exact Or.inr (by simpa using h1)

/- ### Scenario lemmas for the referral branch and the membership handlers -/

theorem find?_single {l : List ReferralRow} {row : ReferralRow} (p : ReferralRow → Bool)
    (hno : ∀ r ∈ l, p r = false) (hp : p row = true) :
    (l ++ [row]).find? p = some row := by
  rw [find?_append_of_forall_false _ hno, List.find?_cons_of_pos _ hp]

theorem startHandler_new {s : DBState} {A B : Int} (hAB : A ≠ B)
    (hno : ∀ r ∈ s.referrals, r.referredId ≠ B) :
    startHandler s B (some (.num A)) =
      { users := (getOrCreateUser s B).users,
        referrals := s.referrals ++ [{ referrerId := A, referredId := B, isActive := false }] } := by
  have hp : paramEqNum (.num A) B = false := by simp [paramEqNum, hAB]
  have hfind : (getOrCreateUser s B).referrals.find? (fun r => r.referredId == B) = none := by
    rw [getOrCreate_referrals, List.find?_eq_none]
    intro r hr; simpa using hno r hr
  unfold startHandler
  simp only [hp, Bool.false_eq_true, if_false]
  simp only [hfind, insertReferral]
  congr 1
  rw [getOrCreate_referrals]

theorem startHandler_reassign {s : DBState} {C B : Int} {l : List ReferralRow}
    {row : ReferralRow} (hCB : C ≠ B) (hrefs : s.referrals = l ++ [row])
    (hno : ∀ r ∈ l, r.referredId ≠ B) (hrow : row.referredId = B)
    (hact : row.isActive = false) :
    startHandler s B (some (.num C)) =
      { users := (getOrCreateUser s B).users,
        referrals := l ++ [{ row with referrerId := C }] } := by
  have hp : paramEqNum (.num C) B = false := by simp [paramEqNum, hCB]
  have hfind : (getOrCreateUser s B).referrals.find? (fun r => r.referredId == B) = some row := by
    rw [getOrCreate_referrals, hrefs]
    exact find?_single _ (fun r hr => by simpa using hno r hr) (by simp [hrow])
  unfold startHandler
  simp only [hp, Bool.false_eq_true, if_false]
  simp only [hfind, hact, Bool.false_eq_true, if_false, reassignReferral]
  congr 1
  rw [getOrCreate_referrals, hrefs, List.map_append, List.map_cons, List.map_nil]
  congr 1
  · exact map_eq_self_of (fun r hr => by unfold setReferrer; simp [hno r hr])
  · unfold setReferrer
    simp [hrow, hact]

theorem newChatMember_single {s : DBState} {B : Int} {l : List ReferralRow}
    {row : ReferralRow} (hrefs : s.referrals = l ++ [row])
    (hno : ∀ r ∈ l, r.referredId ≠ B) (hrow : row.referredId = B)
    (hact : row.isActive = false) :
    newChatMember s B =
      { users := s.users.map (bumpUser row.referrerId (fun c => c + 1)),
        referrals := l ++ [{ row with isActive := true }] } := by
  have hfind : s.referrals.find? (fun r => r.referredId == B && !r.isActive) = some row := by
    rw [hrefs]
    exact find?_single _ (fun r hr => by simp [hno r hr]) (by simp [hrow, hact])
  unfold newChatMember
  simp only [hfind]
  congr 1
  rw [hrefs, List.map_append, List.map_cons, List.map_nil]
  congr 1
  · exact map_eq_self_of (fun r hr => by unfold setActive; simp [hno r hr])
  · unfold setActive
    simp [hrow]

theorem leftChatMember_single {s : DBState} {B : Int} {l : List ReferralRow}
    {row : ReferralRow} (hrefs : s.referrals = l ++ [row])
    (hno : ∀ r ∈ l, r.referredId ≠ B) (hrow : row.referredId = B)
    (hact : row.isActive = true) :
    leftChatMember s B =
      { users := s.users.map (bumpUser row.referrerId (fun c => max 0 (c - 1))),
        referrals := l ++ [{ row with isActive := false }] } := by
  have hfind : s.referrals.find? (fun r => r.referredId == B && r.isActive) = some row := by
    rw [hrefs]
    exact find?_single _ (fun r hr => by simp [hno r hr]) (by simp [hrow, hact])
  unfold leftChatMember
  simp only [hfind]
  congr 1
  rw [hrefs, List.map_append, List.map_cons, List.map_nil]
  congr 1
  · exact map_eq_self_of (fun r hr => by unfold setActive; simp [hno r hr])
  · unfold setActive
    simp [hrow]

/- ### Claim theorems -/

/-- C4: a /start event whose referrer parameter equals the issuing user's own
id (RegisterReferral(R, R)) is a no-op on the store: the whole handler reduces
to getOrCreateUser, so no referral row is created or modified and no existing
user's referral_count changes. -/
theorem c4_self_referral_noop (s : DBState) (R : Int) :
    (startHandler s R (some (.num R))).referrals = s.referrals ∧
    ∀ j c, lookupCount s j = some c →
      lookupCount (startHandler s R (some (.num R))) j = some c := by
  have hs : startHandler s R (some (.num R)) = getOrCreateUser s R := by
    unfold startHandler
    simp [paramEqNum]
  rw [hs]
  refine ⟨getOrCreate_referrals s R, ?_⟩
  intro j c hc
  obtain ⟨u, hu, huc⟩ := lookupCount_some hc
  unfold lookupCount
  rw [lookupUser_getOrCreate R hu]
  simp [huc]

theorem c4_self_referral_noop_witness :
    lookupCount ⟨[⟨5, 3⟩], []⟩ 5 = some 3 ∧
    lookupCount (startHandler ⟨[⟨5, 3⟩], []⟩ 5 (some (.num 5))) 5 = some 3 :=
  ⟨by decide, (c4_self_referral_noop ⟨[⟨5, 3⟩], []⟩ 5).2 5 3 (by decide)⟩

/-- C8: a /start event carrying a malformed (non-numeric) start parameter
causes no state mutation beyond the get-or-create of the issuing user: the
guard Number(param) !== userId holds (NaN is unequal to everything), the
referral branch is entered, but the INSERT/UPDATE statement fails against the
numeric referrer_id column, so the state equals getOrCreateUser alone and in
particular no referral row is created or updated. -/
theorem c8_malformed_param (s : DBState) (u : Int) :
    startHandler s u (some .malformed) = getOrCreateUser s u ∧
    (startHandler s u (some .malformed)).referrals = s.referrals := by
  have hs : startHandler s u (some .malformed) = getOrCreateUser s u := by
    unfold startHandler
    simp only [paramEqNum, Bool.false_eq_true, if_false]
    cases hf : (getOrCreateUser s u).referrals.find? (fun r => r.referredId == u) with
    | none => simp [hf, insertReferral]
    | some row =>
      simp only [hf]
      by_cases ha : row.isActive
      · simp [ha]
      · simp [ha, reassignReferral]
  refine ⟨hs, ?_⟩
  rw [hs]
  exact getOrCreate_referrals s u

/-- C7: left_chat_member applied to a member whose referral row is already
inactive (or absent) changes nothing at all; and in every case the handler
never sets any referral_count below its current value minus one and never
makes a nonnegative count negative (the decrement is GREATEST(0, count-1)). -/
theorem c7_left_inactive_floor (s : DBState) (m : Int) :
    ((∀ r ∈ s.referrals, r.referredId = m → r.isActive = false) → leftChatMember s m = s) ∧
    (∀ j c cNew, lookupCount s j = some c →
      lookupCount (leftChatMember s m) j = some cNew →
      c - 1 ≤ cNew ∧ (0 ≤ c → 0 ≤ cNew)) := by
  constructor
  · intro h
    have hf : s.referrals.find? (fun r => r.referredId == m && r.isActive) = none := by
      rw [List.find?_eq_none]
      intro r hr
      simp only [Bool.and_eq_true, beq_iff_eq, not_and]
      intro hm
      rw [h r hr hm]
      simp
    unfold leftChatMember
    rw [hf]
  · intro j c cNew hc hcNew
    obtain ⟨u, hu, huc⟩ := lookupCount_some hc
    unfold leftChatMember at hcNew
    cases hf : s.referrals.find? (fun r => r.referredId == m && r.isActive) with
    | none =>
      simp only [hf] at hcNew
      rw [hc] at hcNew
      obtain rfl : c = cNew := by simpa using hcNew
      exact ⟨by omega, fun h => h⟩
    | some row =>
      simp only [hf] at hcNew
      by_cases hj : j = row.referrerId
      · subst hj
        have h2 : lookupCount
            ⟨s.users.map (bumpUser row.referrerId (fun x => max 0 (x - 1))),
             s.referrals.map (setActive false m)⟩ row.referrerId
            = some (max 0 (u.referralCount - 1)) := by
          show (lookupUser (s.users.map (bumpUser row.referrerId (fun x => max 0 (x - 1))))
              row.referrerId).map (fun x => x.referralCount) = some (max 0 (u.referralCount - 1))
          rw [lookupUser_bump_self _ hu]
          rfl
        rw [h2] at hcNew
        obtain rfl : cNew = max 0 (u.referralCount - 1) := by simpa using hcNew.symm
        rw [huc]
        exact ⟨le_max_right _ _, fun _ => le_max_left _ _⟩
      · have h2 : lookupCount
            ⟨s.users.map (bumpUser row.referrerId (fun x => max 0 (x - 1))),
             s.referrals.map (setActive false m)⟩ j = some u.referralCount := by
          show (lookupUser (s.users.map (bumpUser row.referrerId (fun x => max 0 (x - 1))))
              j).map (fun x => x.referralCount) = some u.referralCount
          rw [lookupUser_bump_other _ hj hu]
          rfl
        rw [h2] at hcNew
        obtain rfl : cNew = u.referralCount := by simpa using hcNew.symm
        rw [huc]
        exact ⟨by omega, fun h => h⟩

theorem c7_left_inactive_floor_witness :
    leftChatMember ⟨[⟨1, 1⟩], [⟨1, 2, false⟩]⟩ 2 = ⟨[⟨1, 1⟩], [⟨1, 2, false⟩]⟩ ∧
    ((1 : Int) - 1 ≤ 0 ∧ (0 ≤ (1 : Int) → 0 ≤ (0 : Int))) :=
  ⟨(c7_left_inactive_floor ⟨[⟨1, 1⟩], [⟨1, 2, false⟩]⟩ 2).1 (by decide),
   (c7_left_inactive_floor ⟨[⟨1, 1⟩], [⟨1, 2, true⟩]⟩ 2).2 1 1 0 (by decide) (by decide)⟩

/-- C5: registering the same referral twice in a row (the referral still
pending in between) leaves the referrals table exactly as after the first
call — the second call takes the already-existing-referral branch (an UPDATE
of the same row), not the create branch — and the referred user B has exactly
one row, attributed to A and inactive. -/
theorem c5_register_twice (s : DBState) (A B : Int) (hAB : A ≠ B)
    (hno : ∀ r ∈ s.referrals, r.referredId ≠ B) :
    (startHandler (startHandler s B (some (.num A))) B (some (.num A))).referrals
      = (startHandler s B (some (.num A))).referrals ∧
    (startHandler (startHandler s B (some (.num A))) B (some (.num A))).referrals.filter
      (fun r => r.referredId == B)
      = [{ referrerId := A, referredId := B, isActive := false }] := by
  have h1 := startHandler_new hAB hno
  have h1r : (startHandler s B (some (.num A))).referrals
      = s.referrals ++ [⟨A, B, false⟩] := by rw [h1]
  have h2 := @startHandler_reassign (startHandler s B (some (.num A))) A B s.referrals
    ⟨A, B, false⟩ hAB h1r hno rfl rfl
  have h2r : (startHandler (startHandler s B (some (.num A))) B (some (.num A))).referrals
      = s.referrals ++ [⟨A, B, false⟩] := by rw [h2]
  constructor
  · rw [h2r, h1r]
  · rw [h2r, List.filter_append]
    have hnil : s.referrals.filter (fun r => r.referredId == B) = [] :=
      List.filter_eq_nil_iff.mpr (fun r hr => by simpa using hno r hr)
    rw [hnil]
    simp

theorem c5_register_twice_witness :
    (startHandler (startHandler emptyDB 2 (some (.num 1))) 2 (some (.num 1))).referrals
      = (startHandler emptyDB 2 (some (.num 1))).referrals ∧
    (startHandler (startHandler emptyDB 2 (some (.num 1))) 2 (some (.num 1))).referrals.filter
      (fun r => r.referredId == 2)
      = [{ referrerId := 1, referredId := 2, isActive := false }] :=
  c5_register_twice emptyDB 1 2 (by decide) (by decide)

/-- C2: for distinct users A and B both present in the users table, A with
referral_count 0 and B with no prior referral row, the sequence
RegisterReferral(A,B); OnMemberJoined(B); OnMemberLeft(B); OnMemberJoined(B)
gives A a count of 1 after the first join, 0 after the leave, and 1 after the
re-join. -/
theorem c2_join_leave_cycle (s : DBState) (A B : Int) (hAB : A ≠ B)
    (hA : lookupCount s A = some 0) (hB : B ∈ usersIds s)
    (hno : ∀ r ∈ s.referrals, r.referredId ≠ B) :
    lookupCount (newChatMember (startHandler s B (some (.num A))) B) A = some 1 ∧
    lookupCount (leftChatMember (newChatMember (startHandler s B (some (.num A))) B) B) A
      = some 0 ∧
    lookupCount (newChatMember
      (leftChatMember (newChatMember (startHandler s B (some (.num A))) B) B) B) A
      = some 1 := by
  obtain ⟨uA, huA, huAc⟩ := lookupCount_some hA
  have h1 := startHandler_new hAB hno
  have hu0 : lookupUser (getOrCreateUser s B).users A = some uA := lookupUser_getOrCreate B huA
  have h2 : newChatMember ⟨(getOrCreateUser s B).users, s.referrals ++ [⟨A, B, false⟩]⟩ B
      = ⟨(getOrCreateUser s B).users.map (bumpUser A (fun c => c + 1)),
         s.referrals ++ [⟨A, B, true⟩]⟩ :=
    @newChatMember_single _ B s.referrals ⟨A, B, false⟩ rfl hno rfl rfl
  have hu1 : lookupUser ((getOrCreateUser s B).users.map (bumpUser A (fun c => c + 1))) A
      = some ⟨uA.telegramId, uA.referralCount + 1⟩ := lookupUser_bump_self _ hu0
  have h3 : leftChatMember
      ⟨(getOrCreateUser s B).users.map (bumpUser A (fun c => c + 1)),
       s.referrals ++ [⟨A, B, true⟩]⟩ B
      = ⟨((getOrCreateUser s B).users.map (bumpUser A (fun c => c + 1))).map
           (bumpUser A (fun c => max 0 (c - 1))),
         s.referrals ++ [⟨A, B, false⟩]⟩ :=
    @leftChatMember_single _ B s.referrals ⟨A, B, true⟩ rfl hno rfl rfl
  have hu2 : lookupUser (((getOrCreateUser s B).users.map (bumpUser A (fun c => c + 1))).map
        (bumpUser A (fun c => max 0 (c - 1)))) A
      = some ⟨uA.telegramId, max 0 (uA.referralCount + 1 - 1)⟩ := lookupUser_bump_self _ hu1
  have h4 : newChatMember
      ⟨((getOrCreateUser s B).users.map (bumpUser A (fun c => c + 1))).map
          (bumpUser A (fun c => max 0 (c - 1))),
       s.referrals ++ [⟨A, B, false⟩]⟩ B
      = ⟨(((getOrCreateUser s B).users.map (bumpUser A (fun c => c + 1))).map
            (bumpUser A (fun c => max 0 (c - 1)))).map (bumpUser A (fun c => c + 1)),
         s.referrals ++ [⟨A, B, true⟩]⟩ :=
    @newChatMember_single _ B s.referrals ⟨A, B, false⟩ rfl hno rfl rfl
  have hu3 : lookupUser ((((getOrCreateUser s B).users.map (bumpUser A (fun c => c + 1))).map
        (bumpUser A (fun c => max 0 (c - 1)))).map (bumpUser A (fun c => c + 1))) A
      = some ⟨uA.telegramId, max 0 (uA.referralCount + 1 - 1) + 1⟩ := lookupUser_bump_self _ hu2
  refine ⟨?_, ?_, ?_⟩
  · rw [h1, h2]
    show (lookupUser ((getOrCreateUser s B).users.map (bumpUser A (fun c => c + 1))) A).map
      (fun x => x.referralCount) = some 1
    rw [hu1, huAc]
    rfl
  · rw [h1, h2, h3]
    show (lookupUser (((getOrCreateUser s B).users.map (bumpUser A (fun c => c + 1))).map
        (bumpUser A (fun c => max 0 (c - 1)))) A).map (fun x => x.referralCount) = some 0
    rw [hu2, huAc]
    rfl
  · rw [h1, h2, h3, h4]
    show (lookupUser ((((getOrCreateUser s B).users.map (bumpUser A (fun c => c + 1))).map
        (bumpUser A (fun c => max 0 (c - 1)))).map (bumpUser A (fun c => c + 1))) A).map
      (fun x => x.referralCount) = some 1
    rw [hu3, huAc]
    rfl

theorem c2_join_leave_cycle_witness :
    (1 : Int) ≠ 2 ∧
    lookupCount (newChatMember
      (startHandler ⟨[⟨1, 0⟩, ⟨2, 0⟩], []⟩ 2 (some (.num 1))) 2) 1 = some 1 ∧
    lookupCount (leftChatMember (newChatMember
      (startHandler ⟨[⟨1, 0⟩, ⟨2, 0⟩], []⟩ 2 (some (.num 1))) 2) 2) 1 = some 0 ∧
    lookupCount (newChatMember (leftChatMember (newChatMember
      (startHandler ⟨[⟨1, 0⟩, ⟨2, 0⟩], []⟩ 2 (some (.num 1))) 2) 2) 2) 1 = some 1 :=
  ⟨by decide,
   c2_join_leave_cycle ⟨[⟨1, 0⟩, ⟨2, 0⟩], []⟩ 1 2 (by decide) (by decide) (by decide)
     (by decide)⟩

/-- C3: for distinct users A, B, C all present in the users table (A and C
with referral_count 0, B with no prior referral row), the sequence
RegisterReferral(A,B); OnMemberJoined(B); OnMemberLeft(B); RegisterReferral(C,B);
OnMemberJoined(B) reassigns B's single (inactive) referral row to referrer C,
and afterwards C has referral_count 1 while A stays at 0. -/
theorem c3_reassignment (s : DBState) (A B C : Int) (hAB : A ≠ B) (hCB : C ≠ B)
    (hAC : A ≠ C) (hA : lookupCount s A = some 0) (hC : lookupCount s C = some 0)
    (hB : B ∈ usersIds s) (hno : ∀ r ∈ s.referrals, r.referredId ≠ B) :
    (startHandler (leftChatMember (newChatMember (startHandler s B (some (.num A))) B) B) B (some (.num C))).referrals.filter (fun r => r.referredId == B)
      = [{ referrerId := C, referredId := B, isActive := false }] ∧
    lookupCount (newChatMember (startHandler (leftChatMember (newChatMember (startHandler s B (some (.num A))) B) B) B (some (.num C))) B) C = some 1 ∧
    lookupCount (newChatMember (startHandler (leftChatMember (newChatMember (startHandler s B (some (.num A))) B) B) B (some (.num C))) B) A = some 0 := by
  obtain ⟨uA, huA, huAc⟩ := lookupCount_some hA
  obtain ⟨uC, huC, huCc⟩ := lookupCount_some hC
  obtain ⟨uB, huB⟩ := lookupUser_isSome_of_mem hB
  have hBA : B ≠ A := Ne.symm hAB
  have hCA : C ≠ A := Ne.symm hAC
  have h1 := startHandler_new hAB hno
  have h2 : newChatMember ⟨(getOrCreateUser s B).users, s.referrals ++ [⟨A, B, false⟩]⟩ B
      = ⟨((getOrCreateUser s B).users.map (bumpUser A (fun c => c + 1))), s.referrals ++ [⟨A, B, true⟩]⟩ :=
    @newChatMember_single _ B s.referrals ⟨A, B, false⟩ rfl hno rfl rfl
  have h3 : leftChatMember ⟨((getOrCreateUser s B).users.map (bumpUser A (fun c => c + 1))), s.referrals ++ [⟨A, B, true⟩]⟩ B
      = ⟨(((getOrCreateUser s B).users.map (bumpUser A (fun c => c + 1))).map (bumpUser A (fun c => max 0 (c - 1)))), s.referrals ++ [⟨A, B, false⟩]⟩ :=
    @leftChatMember_single _ B s.referrals ⟨A, B, true⟩ rfl hno rfl rfl
  have huB0 : lookupUser (getOrCreateUser s B).users B = some uB := lookupUser_getOrCreate B huB
  have huB1 : lookupUser ((getOrCreateUser s B).users.map (bumpUser A (fun c => c + 1))) B = some uB := lookupUser_bump_other _ hBA huB0
  have huB2 : lookupUser (((getOrCreateUser s B).users.map (bumpUser A (fun c => c + 1))).map (bumpUser A (fun c => max 0 (c - 1)))) B = some uB := lookupUser_bump_other _ hBA huB1
  have hg : getOrCreateUser ⟨(((getOrCreateUser s B).users.map (bumpUser A (fun c => c + 1))).map (bumpUser A (fun c => max 0 (c - 1)))), s.referrals ++ [⟨A, B, false⟩]⟩ B
      = ⟨(((getOrCreateUser s B).users.map (bumpUser A (fun c => c + 1))).map (bumpUser A (fun c => max 0 (c - 1)))), s.referrals ++ [⟨A, B, false⟩]⟩ := getOrCreate_of_some huB2
  have h4 : startHandler ⟨(((getOrCreateUser s B).users.map (bumpUser A (fun c => c + 1))).map (bumpUser A (fun c => max 0 (c - 1)))), s.referrals ++ [⟨A, B, false⟩]⟩ B (some (.num C))
      = ⟨(((getOrCreateUser s B).users.map (bumpUser A (fun c => c + 1))).map (bumpUser A (fun c => max 0 (c - 1)))), s.referrals ++ [⟨C, B, false⟩]⟩ := by
    have h := @startHandler_reassign ⟨(((getOrCreateUser s B).users.map (bumpUser A (fun c => c + 1))).map (bumpUser A (fun c => max 0 (c - 1)))), s.referrals ++ [⟨A, B, false⟩]⟩ C B s.referrals
      ⟨A, B, false⟩ hCB rfl hno rfl rfl
    rw [hg] at h
    exact h
  have h5 : newChatMember ⟨(((getOrCreateUser s B).users.map (bumpUser A (fun c => c + 1))).map (bumpUser A (fun c => max 0 (c - 1)))), s.referrals ++ [⟨C, B, false⟩]⟩ B
      = ⟨((((getOrCreateUser s B).users.map (bumpUser A (fun c => c + 1))).map (bumpUser A (fun c => max 0 (c - 1)))).map (bumpUser C (fun c => c + 1))), s.referrals ++ [⟨C, B, true⟩]⟩ :=
    @newChatMember_single _ B s.referrals ⟨C, B, false⟩ rfl hno rfl rfl
  have huA0 : lookupUser (getOrCreateUser s B).users A = some uA := lookupUser_getOrCreate B huA
  have huA1 : lookupUser ((getOrCreateUser s B).users.map (bumpUser A (fun c => c + 1))) A = some ⟨uA.telegramId, uA.referralCount + 1⟩ :=
    lookupUser_bump_self _ huA0
  have huA2 : lookupUser (((getOrCreateUser s B).users.map (bumpUser A (fun c => c + 1))).map (bumpUser A (fun c => max 0 (c - 1)))) A = some ⟨uA.telegramId, max 0 (uA.referralCount + 1 - 1)⟩ :=
    lookupUser_bump_self _ huA1
  have huA3 : lookupUser ((((getOrCreateUser s B).users.map (bumpUser A (fun c => c + 1))).map (bumpUser A (fun c => max 0 (c - 1)))).map (bumpUser C (fun c => c + 1))) A = some ⟨uA.telegramId, max 0 (uA.referralCount + 1 - 1)⟩ :=
    lookupUser_bump_other _ hAC huA2
  have huC0 : lookupUser (getOrCreateUser s B).users C = some uC := lookupUser_getOrCreate B huC
  have huC1 : lookupUser ((getOrCreateUser s B).users.map (bumpUser A (fun c => c + 1))) C = some uC := lookupUser_bump_other _ hCA huC0
  have huC2 : lookupUser (((getOrCreateUser s B).users.map (bumpUser A (fun c => c + 1))).map (bumpUser A (fun c => max 0 (c - 1)))) C = some uC := lookupUser_bump_other _ hCA huC1
  have huC3 : lookupUser ((((getOrCreateUser s B).users.map (bumpUser A (fun c => c + 1))).map (bumpUser A (fun c => max 0 (c - 1)))).map (bumpUser C (fun c => c + 1))) C = some ⟨uC.telegramId, uC.referralCount + 1⟩ :=
    lookupUser_bump_self _ huC2
  refine ⟨?_, ?_, ?_⟩
  · rw [h1, h2, h3, h4]
    show (s.referrals
        ++ [({ referrerId := C, referredId := B, isActive := false } : ReferralRow)]).filter
        (fun r => r.referredId == B)
      = [{ referrerId := C, referredId := B, isActive := false }]
    rw [List.filter_append, List.filter_eq_nil_iff.mpr (fun r hr => by simpa using hno r hr)]
    simp
  · rw [h1, h2, h3, h4, h5]
    show (lookupUser ((((getOrCreateUser s B).users.map (bumpUser A (fun c => c + 1))).map (bumpUser A (fun c => max 0 (c - 1)))).map (bumpUser C (fun c => c + 1))) C).map (fun x => x.referralCount) = some 1
    rw [huC3, huCc]
    rfl
  · rw [h1, h2, h3, h4, h5]
    show (lookupUser ((((getOrCreateUser s B).users.map (bumpUser A (fun c => c + 1))).map (bumpUser A (fun c => max 0 (c - 1)))).map (bumpUser C (fun c => c + 1))) A).map (fun x => x.referralCount) = some 0
    rw [huA3, huAc]
    rfl

theorem c3_reassignment_witness :
    (startHandler (leftChatMember (newChatMember (startHandler ⟨[⟨1, 0⟩, ⟨2, 0⟩, ⟨3, 0⟩], []⟩ 2 (some (.num 1))) 2) 2) 2 (some (.num 3))).referrals.filter (fun r => r.referredId == 2)
      = [{ referrerId := 3, referredId := 2, isActive := false }] ∧
    lookupCount (newChatMember (startHandler (leftChatMember (newChatMember (startHandler ⟨[⟨1, 0⟩, ⟨2, 0⟩, ⟨3, 0⟩], []⟩ 2 (some (.num 1))) 2) 2) 2 (some (.num 3))) 2) 3 = some 1 ∧
    lookupCount (newChatMember (startHandler (leftChatMember (newChatMember (startHandler ⟨[⟨1, 0⟩, ⟨2, 0⟩, ⟨3, 0⟩], []⟩ 2 (some (.num 1))) 2) 2) 2 (some (.num 3))) 2) 1 = some 0 :=
  c3_reassignment ⟨[⟨1, 0⟩, ⟨2, 0⟩, ⟨3, 0⟩], []⟩ 1 2 3 (by decide) (by decide) (by decide)
    (by decide) (by decide) (by decide) (by decide)

/-- C10 (implicit): RegisterReferral accepts a referrer id A matching no row
in the users table, and a subsequent OnMemberJoined for the referred user B
still marks the referral row active while the increment of
users.referral_count targets the non-existent row for A and silently changes
nothing: the users table is exactly as after the registration step. -/
theorem c10_phantom_referrer (s : DBState) (A B : Int) (hAB : A ≠ B)
    (hA : A ∉ usersIds s) (hno : ∀ r ∈ s.referrals, r.referredId ≠ B) :
    (newChatMember (startHandler s B (some (.num A))) B).users
      = (startHandler s B (some (.num A))).users ∧
    (newChatMember (startHandler s B (some (.num A))) B).referrals
      = s.referrals ++ [{ referrerId := A, referredId := B, isActive := true }] := by
  have h1 := startHandler_new hAB hno
  have h2 : newChatMember ⟨(getOrCreateUser s B).users, s.referrals ++ [⟨A, B, false⟩]⟩ B
      = ⟨(getOrCreateUser s B).users.map (bumpUser A (fun c => c + 1)),
         s.referrals ++ [⟨A, B, true⟩]⟩ :=
    @newChatMember_single _ B s.referrals ⟨A, B, false⟩ rfl hno rfl rfl
  have hid : ∀ u ∈ (getOrCreateUser s B).users, u.telegramId ≠ A := by
    intro u hu
    rcases mem_getOrCreate hu with h | h
    · intro he
      exact hA (by rw [← he]; exact List.mem_map_of_mem _ h)
    · rw [h]
      exact Ne.symm hAB
  constructor
  · rw [h1, h2]
    exact users_bump_id _ hid
  · rw [h1, h2]

theorem c10_phantom_referrer_witness :
    (1 : Int) ∉ usersIds ⟨[⟨2, 0⟩], []⟩ ∧
    ((newChatMember (startHandler ⟨[⟨2, 0⟩], []⟩ 2 (some (.num 1))) 2).users
        = (startHandler ⟨[⟨2, 0⟩], []⟩ 2 (some (.num 1))).users ∧
      (newChatMember (startHandler ⟨[⟨2, 0⟩], []⟩ 2 (some (.num 1))) 2).referrals
        = (⟨[⟨2, 0⟩], []⟩ : DBState).referrals
          ++ [{ referrerId := 1, referredId := 2, isActive := true }]) :=
  ⟨by decide, c10_phantom_referrer ⟨[⟨2, 0⟩], []⟩ 1 2 (by decide) (by decide) (by decide)⟩

/- ### Lemmas for the C1 inductive invariant -/

theorem ids_map_bump (us : List UserRow) (rid : Int) (f : Int → Int) :
    (us.map (bumpUser rid f)).map (fun u => u.telegramId)
      = us.map (fun u => u.telegramId) := by
  rw [List.map_map]
  exact List.map_congr_left (fun u _ => bumpUser_telegramId rid f u)

theorem refIds_map_setActive (b : Bool) (m : Int) (rs : List ReferralRow) :
    (rs.map (setActive b m)).map (fun r => r.referredId)
      = rs.map (fun r => r.referredId) := by
  rw [List.map_map]
  exact List.map_congr_left (fun r _ => setActive_referredId b m r)

theorem refIds_map_setReferrer (n : Int) (m : Int) (rs : List ReferralRow) :
    (rs.map (setReferrer n m)).map (fun r => r.referredId)
      = rs.map (fun r => r.referredId) := by
  rw [List.map_map]
  exact List.map_congr_left (fun r _ => setReferrer_referredId n m r)

theorem countP_referred_eq_one {rs : List ReferralRow} {row : ReferralRow}
    (hnd : (rs.map (fun r => r.referredId)).Nodup) (hmem : row ∈ rs) :
    rs.countP (fun r => r.referredId == row.referredId) = 1 := by
  have hle := countP_key_le_one (fun r : ReferralRow => r.referredId) hnd row.referredId
  have hpos : 0 < rs.countP (fun r => r.referredId == row.referredId) :=
    List.countP_pos_iff.mpr ⟨row, hmem, by simp⟩
  omega

theorem referred_unique {rs : List ReferralRow}
    (hnd : (rs.map (fun r => r.referredId)).Nodup) {row r : ReferralRow}
    (hrow : row ∈ rs) (hr : r ∈ rs) (he : r.referredId = row.referredId) : r = row :=
  List.inj_on_of_nodup_map hnd hr hrow he

theorem usersIds_getOrCreate_mono {s : DBState} {a : Int} (id : Int)
    (h : a ∈ usersIds s) : a ∈ usersIds (getOrCreateUser s id) := by
  unfold getOrCreateUser
  split
  · exact h
  · show a ∈ (s.users ++ [(⟨id, 0⟩ : UserRow)]).map (fun u => u.telegramId)
    rw [List.map_append]
    exact List.mem_append_left _ h

theorem startHandler_selfEq {s : DBState} {u : Int} {p : StartParam}
    (hp : paramEqNum p u = true) : startHandler s u (some p) = getOrCreateUser s u := by
  unfold startHandler
  simp [hp]

theorem startHandler_malformed (s : DBState) (u : Int) :
    startHandler s u (some .malformed) = getOrCreateUser s u := by
  unfold startHandler
  simp only [paramEqNum, Bool.false_eq_true, if_false]
  cases hf : (getOrCreateUser s u).referrals.find? (fun r => r.referredId == u) with
  | none => simp [hf, insertReferral]
  | some row =>
    simp only [hf]
    by_cases ha : row.isActive
    · simp [ha]
    · simp [ha, reassignReferral]

theorem goodState_getOrCreate {s : DBState} (hg : goodState s) (id : Int) :
    goodState (getOrCreateUser s id) := by
  unfold getOrCreateUser
  cases hl : lookupUser s.users id with
  | some u => exact hg
  | none =>
    obtain ⟨hnd, hrd, href, hinv⟩ := hg
    have hid : id ∉ usersIds s := by
      intro hmem
      obtain ⟨u, hu⟩ := lookupUser_isSome_of_mem hmem
      rw [hu] at hl
      cases hl
    have hids : usersIds { s with users := s.users ++ [⟨id, 0⟩] } = usersIds s ++ [id] := by
      show (s.users ++ [(⟨id, 0⟩ : UserRow)]).map (fun u => u.telegramId) = usersIds s ++ [id]
      rw [List.map_append]
      rfl
    refine ⟨?_, hrd, ?_, ?_⟩
    · rw [hids, List.nodup_append]
      refine ⟨hnd, List.nodup_singleton id, ?_⟩
      intro a ha hb
      rw [List.mem_singleton] at hb
      subst hb
      exact hid ha
    · intro r hr
      rw [hids]
      exact List.mem_append_left _ (href r hr)
    · intro u hu
      rcases List.mem_append.mp hu with h | h
      · exact hinv u h
      · rw [List.mem_singleton] at h
        subst h
        show (0 : Int) = ((activeBy { s with users := s.users ++ [⟨id, 0⟩] } id : Nat) : Int)
        have hz : activeBy { s with users := s.users ++ [⟨id, 0⟩] } id = 0 := by
          show s.referrals.countP (fun r => r.referrerId == id && r.isActive) = 0
          rw [List.countP_eq_zero]
          intro r hr hp
          simp only [Bool.and_eq_true, beq_iff_eq] at hp
          exact hid (hp.1 ▸ href r hr)
        rw [hz]
        rfl

theorem goodState_insert {t : DBState} (hg : goodState t) {r u : Int}
    (hr : r ∈ usersIds t)
    (hf : t.referrals.find? (fun row => row.referredId == u) = none) :
    goodState { t with referrals := t.referrals ++ [⟨r, u, false⟩] } := by
  obtain ⟨hnd, hrd, href, hinv⟩ := hg
  have hnr : ∀ x ∈ t.referrals, x.referredId ≠ u := by
    intro x hx
    have := List.find?_eq_none.mp hf x hx
    simpa using this
  refine ⟨hnd, ?_, ?_, ?_⟩
  · show ((t.referrals ++ [(⟨r, u, false⟩ : ReferralRow)]).map (fun x => x.referredId)).Nodup
    rw [List.map_append, List.nodup_append]
    refine ⟨hrd, by simp, ?_⟩
    intro a ha hb
    simp at hb
    subst hb
    obtain ⟨x, hx, hxe⟩ := List.mem_map.mp ha
    exact hnr x hx hxe
  · intro x hx
    rcases List.mem_append.mp hx with h | h
    · exact href x h
    · rw [List.mem_singleton] at h
      subst h
      exact hr
  · intro v hv
    have hv2 := hinv v hv
    unfold activeBy at hv2
    show v.referralCount = ((t.referrals ++ [(⟨r, u, false⟩ : ReferralRow)]).countP
        (fun x => x.referrerId == v.telegramId && x.isActive) : Int)
    rw [List.countP_append]
    have h0 : List.countP (fun x => x.referrerId == v.telegramId && x.isActive)
        [(⟨r, u, false⟩ : ReferralRow)] = 0 := by simp
    rw [h0, Nat.add_zero]
    exact hv2

theorem goodState_reassign {t : DBState} (hg : goodState t) {r u : Int}
    (hr : r ∈ usersIds t) {row : ReferralRow}
    (hf : t.referrals.find? (fun x => x.referredId == u) = some row)
    (hact : row.isActive = false) :
    goodState { t with referrals := t.referrals.map (setReferrer r u) } := by
  obtain ⟨hnd, hrd, href, hinv⟩ := hg
  have hmem : row ∈ t.referrals := List.mem_of_find?_eq_some hf
  have hrm : row.referredId = u := by simpa using List.find?_some hf
  have huniq : ∀ x ∈ t.referrals, x.referredId = u → x = row := fun x hx he =>
    referred_unique hrd hmem hx (by rw [he, hrm])
  refine ⟨hnd, ?_, ?_, ?_⟩
  · show ((t.referrals.map (setReferrer r u)).map (fun x => x.referredId)).Nodup
    rw [refIds_map_setReferrer]
    exact hrd
  · intro x hx
    obtain ⟨x0, hx0, rfl⟩ := List.mem_map.mp hx
    by_cases hx0u : x0.referredId = u
    · have he : setReferrer r u x0 = { x0 with referrerId := r } := by
        unfold setReferrer
        simp [hx0u]
      rw [he]
      exact hr
    · have he : setReferrer r u x0 = x0 := by
        unfold setReferrer
        simp [hx0u]
      rw [he]
      exact href x0 hx0
  · intro v hv
    have hv2 := hinv v hv
    unfold activeBy at hv2
    show v.referralCount = ((t.referrals.map (setReferrer r u)).countP
        (fun x => x.referrerId == v.telegramId && x.isActive) : Int)
    have hcp : (t.referrals.map (setReferrer r u)).countP
        (fun x => x.referrerId == v.telegramId && x.isActive)
        = t.referrals.countP (fun x => x.referrerId == v.telegramId && x.isActive) := by
      apply countP_map_eq
      intro x hx
      by_cases hx0u : x.referredId = u
      · have hxr := huniq x hx hx0u
        subst hxr
        have he : setReferrer r u x = { x with referrerId := r } := by
          unfold setReferrer
          simp [hx0u]
        rw [he]
        simp [hact]
      · have he : setReferrer r u x = x := by
          unfold setReferrer
          simp [hx0u]
        rw [he]
    rw [hcp]
    exact hv2

theorem goodState_start {s : DBState} (hg : goodState s) (u : Int) (p : Option StartParam)
    (hok : okEvent s (.start u p) = true) : goodState (startHandler s u p) := by
  have hg1 := goodState_getOrCreate hg u
  cases p with
  | none => exact hg1
  | some q =>
    cases q with
    | malformed =>
      rw [startHandler_malformed]
      exact hg1
    | num r =>
      by_cases hru : r = u
      · have hp : paramEqNum (.num r) u = true := by simp [paramEqNum, hru]
        rw [startHandler_selfEq hp]
        exact hg1
      · have hrs : r ∈ usersIds s := by
          unfold okEvent at hok
          simp only [Bool.or_eq_true, beq_iff_eq, decide_eq_true_eq] at hok
          rcases hok with h | h
          · exact absurd h hru
          · exact h
        have hr1 : r ∈ usersIds (getOrCreateUser s u) := usersIds_getOrCreate_mono u hrs
        have hp : paramEqNum (.num r) u = false := by simp [paramEqNum, hru]
        unfold startHandler
        simp only [hp, Bool.false_eq_true, if_false]
        cases hf : (getOrCreateUser s u).referrals.find? (fun row => row.referredId == u) with
        | none =>
          simp only [hf]
          exact goodState_insert hg1 hr1 hf
        | some row =>
          simp only [hf]
          by_cases hact : row.isActive
          · rw [if_pos hact]
            exact hg1
          · rw [if_neg hact]
            have hactF : row.isActive = false := by
              cases h2 : row.isActive
              · rfl
              · exact absurd h2 hact
            exact goodState_reassign hg1 hr1 hf hactF

theorem goodState_join {s : DBState} (hg : goodState s) (m : Int) :
    goodState (newChatMember s m) := by
  obtain ⟨hnd, hrd, href, hinv⟩ := hg
  unfold newChatMember
  cases hf : s.referrals.find? (fun r => r.referredId == m && !r.isActive) with
  | none => exact ⟨hnd, hrd, href, hinv⟩
  | some row =>
    have hmem : row ∈ s.referrals := List.mem_of_find?_eq_some hf
    have hp := List.find?_some hf
    simp at hp
    obtain ⟨hrm, hract⟩ := hp
    have huniq : ∀ x ∈ s.referrals, x.referredId = m → x = row := fun x hx he =>
      referred_unique hrd hmem hx (by rw [he, hrm])
    have hidseq : usersIds ⟨s.users.map (bumpUser row.referrerId (fun c => c + 1)),
        s.referrals.map (setActive true m)⟩ = usersIds s := by
      show (s.users.map (bumpUser row.referrerId (fun c => c + 1))).map
        (fun x => x.telegramId) = usersIds s
      rw [ids_map_bump]
      rfl
    refine ⟨?_, ?_, ?_, ?_⟩
    · rw [hidseq]
      exact hnd
    · show ((s.referrals.map (setActive true m)).map (fun x => x.referredId)).Nodup
      rw [refIds_map_setActive]
      exact hrd
    · intro x hx
      obtain ⟨x0, hx0, rfl⟩ := List.mem_map.mp hx
      rw [setActive_referrerId, hidseq]
      exact href x0 hx0
    · intro v hv
      obtain ⟨v0, hv0, rfl⟩ := List.mem_map.mp hv
      have hv2 := hinv v0 hv0
      unfold activeBy at hv2
      by_cases hvid : v0.telegramId = row.referrerId
      · have hbv : bumpUser row.referrerId (fun c => c + 1) v0
            = ⟨v0.telegramId, v0.referralCount + 1⟩ := by
          unfold bumpUser
          simp [hvid]
        rw [hbv]
        show v0.referralCount + 1
            = ((s.referrals.map (setActive true m)).countP
              (fun x => x.referrerId == v0.telegramId && x.isActive) : Int)
        have hflip : (s.referrals.map (setActive true m)).countP
            (fun x => x.referrerId == v0.telegramId && x.isActive)
            = s.referrals.countP (fun x => x.referrerId == v0.telegramId && x.isActive)
              + s.referrals.countP (fun x => x.referredId == m) := by
          apply countP_map_flipTrue
          · intro x hx hcx
            simp at hcx
            unfold setActive
            simp [hcx]
          · intro x hx hcx
            simp at hcx
            have hxr := huniq x hx hcx
            subst hxr
            constructor
            · simp [hract]
            · unfold setActive
              simp [hcx, hvid]
        have hone : s.referrals.countP (fun x => x.referredId == m) = 1 := by
          rw [← hrm]
          exact countP_referred_eq_one hrd hmem
        rw [hflip, hone]
        omega
      · have hbv : bumpUser row.referrerId (fun c => c + 1) v0 = v0 := by
          unfold bumpUser
          simp [hvid]
        rw [hbv]
        show v0.referralCount = ((s.referrals.map (setActive true m)).countP
            (fun x => x.referrerId == v0.telegramId && x.isActive) : Int)
        have heq : (s.referrals.map (setActive true m)).countP
            (fun x => x.referrerId == v0.telegramId && x.isActive)
            = s.referrals.countP (fun x => x.referrerId == v0.telegramId && x.isActive) := by
          apply countP_map_eq
          intro x hx
          by_cases hcx : x.referredId = m
          · have hxr := huniq x hx hcx
            subst hxr
            have hne : x.referrerId ≠ v0.telegramId := fun h => hvid h.symm
            unfold setActive
            simp [hcx, hract, hne]
          · unfold setActive
            simp [hcx]
        rw [heq]
        exact hv2

theorem goodState_left {s : DBState} (hg : goodState s) (m : Int) :
    goodState (leftChatMember s m) := by
  obtain ⟨hnd, hrd, href, hinv⟩ := hg
  unfold leftChatMember
  cases hf : s.referrals.find? (fun r => r.referredId == m && r.isActive) with
  | none => exact ⟨hnd, hrd, href, hinv⟩
  | some row =>
    have hmem : row ∈ s.referrals := List.mem_of_find?_eq_some hf
    have hp := List.find?_some hf
    simp at hp
    obtain ⟨hrm, hract⟩ := hp
    have huniq : ∀ x ∈ s.referrals, x.referredId = m → x = row := fun x hx he =>
      referred_unique hrd hmem hx (by rw [he, hrm])
    have hidseq : usersIds ⟨s.users.map (bumpUser row.referrerId (fun c => max 0 (c - 1))),
        s.referrals.map (setActive false m)⟩ = usersIds s := by
      show (s.users.map (bumpUser row.referrerId (fun c => max 0 (c - 1)))).map
        (fun x => x.telegramId) = usersIds s
      rw [ids_map_bump]
      rfl
    refine ⟨?_, ?_, ?_, ?_⟩
    · rw [hidseq]
      exact hnd
    · show ((s.referrals.map (setActive false m)).map (fun x => x.referredId)).Nodup
      rw [refIds_map_setActive]
      exact hrd
    · intro x hx
      obtain ⟨x0, hx0, rfl⟩ := List.mem_map.mp hx
      rw [setActive_referrerId, hidseq]
      exact href x0 hx0
    · intro v hv
      obtain ⟨v0, hv0, rfl⟩ := List.mem_map.mp hv
      have hv2 := hinv v0 hv0
      unfold activeBy at hv2
      by_cases hvid : v0.telegramId = row.referrerId
      · have hbv : bumpUser row.referrerId (fun c => max 0 (c - 1)) v0
            = ⟨v0.telegramId, max 0 (v0.referralCount - 1)⟩ := by
          unfold bumpUser
          simp [hvid]
        rw [hbv]
        show max 0 (v0.referralCount - 1)
            = ((s.referrals.map (setActive false m)).countP
              (fun x => x.referrerId == v0.telegramId && x.isActive) : Int)
        have hflip : (s.referrals.map (setActive false m)).countP
            (fun x => x.referrerId == v0.telegramId && x.isActive)
            + s.referrals.countP (fun x => x.referredId == m)
            = s.referrals.countP (fun x => x.referrerId == v0.telegramId && x.isActive) := by
          apply countP_map_flipFalse
          · intro x hx hcx
            simp at hcx
            unfold setActive
            simp [hcx]
          · intro x hx hcx
            simp at hcx
            have hxr := huniq x hx hcx
            subst hxr
            constructor
            · simp [hract, hvid]
            · unfold setActive
              simp [hcx]
        have hone : s.referrals.countP (fun x => x.referredId == m) = 1 := by
          rw [← hrm]
          exact countP_referred_eq_one hrd hmem
        have hpos : 0 < s.referrals.countP
            (fun x => x.referrerId == v0.telegramId && x.isActive) := by
          apply List.countP_pos_iff.mpr
          exact ⟨row, hmem, by simp [hract, hvid]⟩
        rw [hone] at hflip
        have hge : (0 : Int) ≤ v0.referralCount - 1 := by omega
        rw [max_eq_right hge]
        omega
      · have hbv : bumpUser row.referrerId (fun c => max 0 (c - 1)) v0 = v0 := by
          unfold bumpUser
          simp [hvid]
        rw [hbv]
        show v0.referralCount = ((s.referrals.map (setActive false m)).countP
            (fun x => x.referrerId == v0.telegramId && x.isActive) : Int)
        have heq : (s.referrals.map (setActive false m)).countP
            (fun x => x.referrerId == v0.telegramId && x.isActive)
            = s.referrals.countP (fun x => x.referrerId == v0.telegramId && x.isActive) := by
          apply countP_map_eq
          intro x hx
          by_cases hcx : x.referredId = m
          · have hxr := huniq x hx hcx
            subst hxr
            have hne : x.referrerId ≠ v0.telegramId := fun h => hvid h.symm
            unfold setActive
            simp [hcx, hne]
          · unfold setActive
            simp [hcx]
        rw [heq]
        exact hv2

theorem goodState_step {s : DBState} (hg : goodState s) {e : Event}
    (hok : okEvent s e = true) : goodState (step s e) := by
  cases e with
  | start u p => exact goodState_start hg u p hok
  | memberJoined m => exact goodState_join hg m
  | memberLeft m => exact goodState_left hg m

theorem goodState_runTrace {s : DBState} (hg : goodState s) {es : List Event}
    (hok : okTrace s es = true) : goodState (runTrace s es) := by
  induction es generalizing s with
  | nil => exact hg
  | cons e es ih =>
    unfold okTrace at hok
    simp only [Bool.and_eq_true] at hok
    obtain ⟨h1, h2⟩ := hok
    exact ih (goodState_step hg h1) h2

theorem goodState_empty : goodState emptyDB := by
  unfold goodState countInv
  refine ⟨List.nodup_nil, List.nodup_nil, ?_, ?_⟩
  · intro r hr
    cases hr
  · intro u hu
    cases hu

/-- C1 (amended): starting from the empty store, after every sequence of
RegisterReferral / OnMemberJoined / OnMemberLeft events in which each
RegisterReferral whose start parameter is numeric and different from the
issuing user names a referrer already present in the users table, every user
U's referral_count equals the number of referral rows with referrer = U and
is_active = true. -/
theorem c1_count_invariant (es : List Event) (hok : okTrace emptyDB es = true) :
    countInv (runTrace emptyDB es) :=
  (goodState_runTrace goodState_empty hok).2.2.2

theorem c1_count_invariant_witness :
    okTrace emptyDB [.start 1 none, .start 2 (some (.num 1)), .memberJoined 2] = true ∧
    countInv (runTrace emptyDB
      [.start 1 none, .start 2 (some (.num 1)), .memberJoined 2]) :=
  ⟨by decide, c1_count_invariant _ (by decide)⟩

/-- C1 counterexample: the claim as stated (for every sequence of operations
from the empty store) is false.  User 2 registers with a referrer id 1 that
has no users row yet; the join activates the row but the count increment hits
no users row; then user 1 contacts the bot and is created with
referral_count = 0 while one active referral row names 1 as referrer. -/
theorem c1_counterexample :
    ¬ countInv (runTrace emptyDB
      [.start 2 (some (.num 1)), .memberJoined 2, .start 1 (some (.num 3))]) := by
  decide

/- ### Broadcast lemmas -/

theorem broadcastGo_counts (send : Int → SendOutcome) :
    ∀ (ids : List Int) (sc fc : Nat) (us : List UserRow),
      (broadcastGo send ids sc fc us).1 + (broadcastGo send ids sc fc us).2.1
        = sc + fc + ids.length := by
  intro ids
  induction ids with
  | nil =>
    intro sc fc us
    simp [broadcastGo]
  | cons id rest ih =>
    intro sc fc us
    unfold broadcastGo
    cases hsend : send id with
    | delivered =>
      simp only [hsend, List.length_cons]
      have := ih (sc + 1) fc us
      omega
    | blocked =>
      simp only [hsend, List.length_cons]
      have := ih sc (fc + 1) (us.filter (fun u => !(u.telegramId == id)))
      omega
    | failedOther =>
      simp only [hsend, List.length_cons]
      have := ih sc (fc + 1) us
      omega

theorem broadcastGo_all_delivered (send : Int → SendOutcome) :
    ∀ (ids : List Int) (sc fc : Nat) (us : List UserRow),
      (∀ id ∈ ids, send id = .delivered) →
      broadcastGo send ids sc fc us = (sc + ids.length, fc, us) := by
  intro ids
  induction ids with
  | nil =>
    intro sc fc us _
    simp [broadcastGo]
  | cons id rest ih =>
    intro sc fc us hall
    have hid : send id = .delivered := hall id (List.mem_cons_self id rest)
    unfold broadcastGo
    simp only [hid, List.length_cons]
    rw [ih (sc + 1) fc us (fun x hx => hall x (List.mem_cons_of_mem id hx))]
    simp only [Prod.mk.injEq, and_true]
    omega

theorem broadcastGo_one_blocked (send : Int → SendOutcome) :
    ∀ (ids : List Int) (sc fc : Nat) (us : List UserRow), ids.Nodup →
      ∀ u0 ∈ ids, send u0 = .blocked →
      (∀ id ∈ ids, id ≠ u0 → send id = .delivered) →
      broadcastGo send ids sc fc us
        = (sc + (ids.length - 1), fc + 1, us.filter (fun u => !(u.telegramId == u0))) := by
  intro ids
  induction ids with
  | nil =>
    intro sc fc us _ u0 h0
    cases h0
  | cons id rest ih =>
    intro sc fc us hnd u0 hmem hb hok
    rw [List.nodup_cons] at hnd
    rcases List.mem_cons.mp hmem with h | h
    · subst h
      unfold broadcastGo
      simp only [hb, List.length_cons]
      rw [broadcastGo_all_delivered send rest sc (fc + 1) _
        (fun x hx => hok x (List.mem_cons_of_mem u0 hx) (fun he => hnd.1 (he ▸ hx)))]
      simp only [Prod.mk.injEq, and_true]
      omega
    · have hid : send id = .delivered :=
        hok id (List.mem_cons_self id rest) (fun he => hnd.1 (he ▸ h))
      unfold broadcastGo
      simp only [hid, List.length_cons]
      rw [ih (sc + 1) fc us hnd.2 u0 h hb
        (fun x hx hne => hok x (List.mem_cons_of_mem id hx) hne)]
      have hlen := List.length_pos_of_mem h
      simp only [Prod.mk.injEq, and_true]
      omega

/-- C9: over a store of n users (distinct primary keys) where exactly one
recipient's send fails with the blocked/forbidden error and the rest are
delivered, broadcastMessage returns success_count = n - 1 and
failed_count = 1, and the blocked user's row is deleted from the users table
while everyone else's row survives; and for any send behaviour whatsoever
each of the n snapshot ids is attempted exactly once, so
success_count + failed_count = n. -/
theorem c9_broadcast (s : DBState) (send : Int → SendOutcome) (u0 : Int)
    (hnd : (s.users.map (fun u => u.telegramId)).Nodup)
    (hmem : u0 ∈ s.users.map (fun u => u.telegramId))
    (hb : send u0 = .blocked)
    (hok : ∀ id ∈ s.users.map (fun u => u.telegramId), id ≠ u0 → send id = .delivered) :
    broadcastMessage send s
      = (s.users.length - 1, 1, s.users.filter (fun u => !(u.telegramId == u0))) ∧
    (∀ u ∈ (broadcastMessage send s).2.2, u.telegramId ≠ u0) ∧
    (∀ send2 : Int → SendOutcome,
      (broadcastMessage send2 s).1 + (broadcastMessage send2 s).2.1 = s.users.length) := by
  have hmain : broadcastMessage send s
      = (s.users.length - 1, 1, s.users.filter (fun u => !(u.telegramId == u0))) := by
    unfold broadcastMessage
    rw [broadcastGo_one_blocked send (s.users.map (fun u => u.telegramId)) 0 0 s.users
      hnd u0 hmem hb hok]
    simp
  refine ⟨hmain, ?_, ?_⟩
  · rw [hmain]
    intro u hu
    have := List.of_mem_filter hu
    simpa using this
  · intro send2
    have := broadcastGo_counts send2 (s.users.map (fun u => u.telegramId)) 0 0 s.users
    simpa using this

theorem c9_broadcast_witness :
    broadcastMessage (fun i => if i == 2 then .blocked else .delivered)
        ⟨[⟨1, 0⟩, ⟨2, 0⟩, ⟨3, 0⟩], []⟩
      = (2, 1, [⟨1, 0⟩, ⟨3, 0⟩]) := by
  have h := (c9_broadcast ⟨[⟨1, 0⟩, ⟨2, 0⟩, ⟨3, 0⟩], []⟩
    (fun i => if i == 2 then .blocked else .delivered) 2
    (by decide) (by decide) (by decide) (by decide)).1
  exact h.trans (by decide)

/- ### Rank lemmas -/

theorem rankAux_fst : ∀ (l prev : List UserRow), (rankAux prev l).map Prod.fst = l := by
  intro l
  induction l with
  | nil => intro prev; rfl
  | cons x xs ih =>
    intro prev
    unfold rankAux
    rw [List.map_cons, ih (prev ++ [x])]

theorem rankAux_mem_pos : ∀ (l prev : List UserRow),
    l.Pairwise countGE → (∀ a ∈ prev, ∀ b ∈ l, countGE a b) →
    ∀ u k, (u, k) ∈ rankAux prev l →
      k = 1 + (prev ++ l).countP (fun v => decide (u.referralCount < v.referralCount)) := by
  intro l
  induction l with
  | nil =>
    intro prev _ _ u k hk
    cases hk
  | cons x xs ih =>
    intro prev hpw hprev u k hk
    rw [List.pairwise_cons] at hpw
    obtain ⟨hx, hpw2⟩ := hpw
    unfold rankAux at hk
    rcases List.mem_cons.mp hk with h | h
    · rw [Prod.mk.injEq] at h
      obtain ⟨he, rfl⟩ := h
      rw [he]
      congr 1
      rw [List.countP_append]
      have h0 : (x :: xs).countP (fun v => decide (x.referralCount < v.referralCount)) = 0 := by
        rw [List.countP_eq_zero]
        intro v hv hdv
        simp only [decide_eq_true_eq] at hdv
        rcases List.mem_cons.mp hv with h2 | h2
        · rw [h2] at hdv
          exact lt_irrefl _ hdv
        · exact absurd hdv (not_lt.mpr (hx v h2))
      rw [h0, Nat.add_zero]
    · have hprev2 : ∀ a ∈ prev ++ [x], ∀ b ∈ xs, countGE a b := by
        intro a ha b hb
        rcases List.mem_append.mp ha with h1 | h1
        · exact hprev a h1 b (List.mem_cons_of_mem x hb)
        · rw [List.mem_singleton] at h1
          subst h1
          exact hx b hb
      have hk2 := ih (prev ++ [x]) hpw2 hprev2 u k h
      rw [hk2, List.append_assoc]
      rfl

/-- C6: GetRank(U) returns U's referral_count together with the competition
rank 1 + the number of users with strictly greater referral_count, so ties
share a rank; when U is unknown or has referral_count 0 it returns none (the
"no referrals yet" outcome). -/
theorem c6_rank (s : DBState) (hnd : (s.users.map (fun u => u.telegramId)).Nodup) :
    (∀ u ∈ s.users, 0 < u.referralCount →
      getRank s u.telegramId
        = some (u.referralCount,
            1 + s.users.countP (fun v => decide (u.referralCount < v.referralCount)))) ∧
    (∀ u ∈ s.users, ¬ 0 < u.referralCount → getRank s u.telegramId = none) ∧
    (∀ uid : Int, uid ∉ s.users.map (fun u => u.telegramId) → getRank s uid = none) := by
  have hperm : (List.insertionSort countGE s.users).Perm s.users :=
    List.perm_insertionSort countGE s.users
  have hpw : (List.insertionSort countGE s.users).Pairwise countGE :=
    List.sorted_insertionSort countGE s.users
  have hnds : ((List.insertionSort countGE s.users).map (fun x => x.telegramId)).Nodup :=
    ((hperm.map (fun x => x.telegramId)).nodup_iff).mpr hnd
  have key : ∀ u ∈ s.users,
      (rankAux [] (List.insertionSort countGE s.users)).find?
          (fun q => q.1.telegramId == u.telegramId)
        = some (u, 1 + s.users.countP
            (fun v => decide (u.referralCount < v.referralCount))) := by
    intro u hu
    have hus : u ∈ List.insertionSort countGE s.users := hperm.mem_iff.mpr hu
    have hex : ∃ k, (u, k) ∈ rankAux [] (List.insertionSort countGE s.users) := by
      have h1 : u ∈ (rankAux [] (List.insertionSort countGE s.users)).map Prod.fst := by
        rw [rankAux_fst]
        exact hus
      obtain ⟨q, hq, hqe⟩ := List.mem_map.mp h1
      refine ⟨q.2, ?_⟩
      rw [← hqe]
      exact hq
    obtain ⟨k, hk⟩ := hex
    have hsome : ((rankAux [] (List.insertionSort countGE s.users)).find?
        (fun q => q.1.telegramId == u.telegramId)).isSome := by
      rw [List.find?_isSome]
      exact ⟨(u, k), hk, by simp⟩
    obtain ⟨q0, hq0⟩ := Option.isSome_iff_exists.mp hsome
    have hq0mem := List.mem_of_find?_eq_some hq0
    have hq0pred := List.find?_some hq0
    simp only [beq_iff_eq] at hq0pred
    have hq0fst : q0.1 ∈ List.insertionSort countGE s.users := by
      rw [← rankAux_fst (List.insertionSort countGE s.users) []]
      exact List.mem_map_of_mem Prod.fst hq0mem
    have hq0u : q0.1 = u := List.inj_on_of_nodup_map hnds hq0fst hus hq0pred
    have hq0k := rankAux_mem_pos (List.insertionSort countGE s.users) [] hpw
      (fun a ha => absurd ha (List.not_mem_nil a)) q0.1 q0.2 hq0mem
    rw [List.nil_append] at hq0k
    rw [hq0]
    have hq0eq : q0 = (u, 1 + s.users.countP
        (fun v => decide (u.referralCount < v.referralCount))) := by
      rw [← hq0u]
      rw [show q0 = (q0.1, q0.2) from rfl, Prod.mk.injEq]
      refine ⟨rfl, ?_⟩
      rw [hq0k]
      congr 1
      exact hperm.countP_eq _
    rw [hq0eq]
  refine ⟨?_, ?_, ?_⟩
  · intro u hu hpos
    unfold getRank
    rw [key u hu]
    simp [hpos]
  · intro u hu hpos
    unfold getRank
    rw [key u hu]
    simp [hpos]
  · intro uid huid
    have hnone : (rankAux [] (List.insertionSort countGE s.users)).find?
        (fun q => q.1.telegramId == uid) = none := by
      rw [List.find?_eq_none]
      intro q hq hqp
      simp only [beq_iff_eq] at hqp
      have hq1 : q.1 ∈ List.insertionSort countGE s.users := by
        rw [← rankAux_fst (List.insertionSort countGE s.users) []]
        exact List.mem_map_of_mem Prod.fst hq
      have hq2 : q.1 ∈ s.users := hperm.mem_iff.mp hq1
      exact huid (hqp ▸ List.mem_map_of_mem (fun x => x.telegramId) hq2)
    unfold getRank
    rw [hnone]

theorem c6_rank_witness :
    getRank ⟨[⟨1, 5⟩, ⟨2, 5⟩, ⟨3, 3⟩, ⟨4, 0⟩], []⟩ 1 = some (5, 1) ∧
    getRank ⟨[⟨1, 5⟩, ⟨2, 5⟩, ⟨3, 3⟩, ⟨4, 0⟩], []⟩ 2 = some (5, 1) ∧
    getRank ⟨[⟨1, 5⟩, ⟨2, 5⟩, ⟨3, 3⟩, ⟨4, 0⟩], []⟩ 3 = some (3, 3) ∧
    getRank ⟨[⟨1, 5⟩, ⟨2, 5⟩, ⟨3, 3⟩, ⟨4, 0⟩], []⟩ 4 = none := by
  have h := c6_rank ⟨[⟨1, 5⟩, ⟨2, 5⟩, ⟨3, 3⟩, ⟨4, 0⟩], []⟩ (by decide)
  refine ⟨?_, ?_, ?_, ?_⟩
  · exact (h.1 ⟨1, 5⟩ (by decide) (by decide)).trans (by decide)
  · exact (h.1 ⟨2, 5⟩ (by decide) (by decide)).trans (by decide)
  · exact (h.1 ⟨3, 3⟩ (by decide) (by decide)).trans (by decide)
  · exact h.2.1 ⟨4, 0⟩ (by decide) (by decide)

end ReferralBot
